import Mathlib

/-!
Verification of the `eDyrr/url-shortener` Go repository.

The development shallow-embeds the two core components:

* the short-code generator (`shortener` package: `sha2560f`, `base58Encoded`,
  `GeneratedLink`), including the third-party base-58 codec it calls
  (`github.com/itchyny/base58-go`, `BitcoinEncoding`), and
* the storage layer (`store` package: `StorageService`, `InitializeStore`,
  `SaveUrlMapping`, `RetrieveInitialUrl`, `CacheDuration`).

Byte strings are `List Nat` with entries below 256.  Machine words are `Nat`
reduced modulo `2^32` (resp. `2^64`) exactly where the Go code overflows.
Go panics / `os.Exit` calls are modelled by an explicit `GoFault` error value,
so a "crash" is visible as `Except.error`.
-/

namespace UrlShortener

/-! ### 32-bit word helpers (crypto/sha256 internals) -/

/-- Reduce to an unsigned 32-bit word, as Go `uint32` arithmetic does. -/
def w32 (x : Nat) : Nat := x % 4294967296

/-- 32-bit rotate right. -/
def rotr (n x : Nat) : Nat := w32 ((x >>> n) ||| (x <<< (32 - n)))

/-- Logical shift right. -/
def shr (n x : Nat) : Nat := x >>> n

/-- SHA-256 choice function `Ch(x,y,z) = (x AND y) XOR ((NOT x) AND z)`. -/
def ch (x y z : Nat) : Nat := (x &&& y) ^^^ ((x ^^^ 4294967295) &&& z)

/-- SHA-256 majority function. -/
def maj (x y z : Nat) : Nat := (x &&& y) ^^^ (x &&& z) ^^^ (y &&& z)

/-- Big sigma 0. -/
def bsig0 (x : Nat) : Nat := rotr 2 x ^^^ rotr 13 x ^^^ rotr 22 x

/-- Big sigma 1. -/
def bsig1 (x : Nat) : Nat := rotr 6 x ^^^ rotr 11 x ^^^ rotr 25 x

/-- Small sigma 0. -/
def ssig0 (x : Nat) : Nat := rotr 7 x ^^^ rotr 18 x ^^^ shr 3 x

/-- Small sigma 1. -/
def ssig1 (x : Nat) : Nat := rotr 17 x ^^^ rotr 19 x ^^^ shr 10 x

/-- The 64 SHA-256 round constants (decimal). -/
def K : List Nat :=
  [1116352408, 1899447441, 3049323471, 3921009573, 961987163,
   1508970993, 2453635748, 2870763221, 3624381080, 310598401,
   607225278, 1426881987, 1925078388, 2162078206, 2614888103,
   3248222580, 3835390401, 4022224774, 264347078, 604807628,
   770255983, 1249150122, 1555081692, 1996064986, 2554220882,
   2821834349, 2952996808, 3210313671, 3336571891, 3584528711,
   113926993, 338241895, 666307205, 773529912, 1294757372,
   1396182291, 1695183700, 1986661051, 2177026350, 2456956037,
   2730485921, 2820302411, 3259730800, 3345764771, 3516065817,
   3600352804, 4094571909, 275423344, 430227734, 506948616,
   659060556, 883997877, 958139571, 1322822218, 1537002063,
   1747873779, 1955562222, 2024104815, 2227730452, 2361852424,
   2428436474, 2756734187, 3204031479, 3329325298]

/-- The eight 32-bit working variables of the SHA-256 compression function. -/
structure Hs where
  a : Nat
  b : Nat
  c : Nat
  d : Nat
  e : Nat
  f : Nat
  g : Nat
  h : Nat
deriving Repr, DecidableEq

/-- SHA-256 initial hash value (decimal). -/
def H0 : Hs :=
  ⟨1779033703, 3144134277, 1013904242, 2773480762,
   1359893119, 2600822924, 528734635, 1541459225⟩

/-- Group a byte list into big-endian 32-bit words (4 bytes per word). -/
def toWords : List Nat → List Nat
  | b0 :: b1 :: b2 :: b3 :: rest => (((b0 * 256 + b1) * 256 + b2) * 256 + b3) :: toWords rest
  | _ => []

/-- Extend the 16-word message block to the 64-word schedule; `n` counts the
remaining words to append (48 at the top level). -/
def extendW : Nat → List Nat → List Nat
  | 0, w => w
  | n + 1, w =>
    extendW n (w ++ [w32 (ssig1 (w.getD (w.length - 2) 0) + w.getD (w.length - 7) 0 +
                          ssig0 (w.getD (w.length - 15) 0) + w.getD (w.length - 16) 0)])

/-- One SHA-256 round, consuming a (round constant, schedule word) pair. -/
def round (s : Hs) (kw : Nat × Nat) : Hs :=
  let t1 := w32 (s.h + bsig1 s.e + ch s.e s.f s.g + kw.1 + kw.2)
  let t2 := w32 (bsig0 s.a + maj s.a s.b s.c)
  ⟨w32 (t1 + t2), s.a, s.b, s.c, w32 (s.d + t1), s.e, s.f, s.g⟩

/-- SHA-256 compression of a single 64-byte block into the chaining value. -/
def compress (hv : Hs) (block : List Nat) : Hs :=
  let w := extendW 48 (toWords block)
  let s := (List.zip K w).foldl round hv
  ⟨w32 (hv.a + s.a), w32 (hv.b + s.b), w32 (hv.c + s.c), w32 (hv.d + s.d),
   w32 (hv.e + s.e), w32 (hv.f + s.f), w32 (hv.g + s.g), w32 (hv.h + s.h)⟩

/-- Big-endian 8-byte rendering of a 64-bit length value. -/
def be64 (n : Nat) : List Nat :=
  [n / 72057594037927936 % 256, n / 281474976710656 % 256,
   n / 1099511627776 % 256, n / 4294967296 % 256,
   n / 16777216 % 256, n / 65536 % 256, n / 256 % 256, n % 256]

/-- SHA-256 padding: append `0x80`, zeros, and the 64-bit bit length. -/
def padMsg (msg : List Nat) : List Nat :=
  msg ++ [128] ++ List.replicate ((64 - (msg.length + 9) % 64) % 64) 0 ++ be64 (8 * msg.length)

/-- Split a byte list into 64-byte blocks; the fuel argument bounds recursion. -/
def chunk64 : Nat → List Nat → List (List Nat)
  | 0, _ => []
  | _, [] => []
  | fu + 1, l => l.take 64 :: chunk64 fu (l.drop 64)

/-- Big-endian 4-byte rendering of a 32-bit word. -/
def wordBytes (w : Nat) : List Nat :=
  [w / 16777216 % 256, w / 65536 % 256, w / 256 % 256, w % 256]

/-- Serialize the eight chaining words into the 32-byte digest. -/
def outBytes (s : Hs) : List Nat :=
  wordBytes s.a ++ wordBytes s.b ++ wordBytes s.c ++ wordBytes s.d ++
  wordBytes s.e ++ wordBytes s.f ++ wordBytes s.g ++ wordBytes s.h

/-- SHA-256 of a byte list, as Go `crypto/sha256` computes it. -/
def sha256 (msg : List Nat) : List Nat :=
  outBytes ((chunk64 (padMsg msg).length (padMsg msg)).foldl compress H0)

/-! ### Strings as UTF-8 byte lists

Go strings are UTF-8 byte sequences, and `[]byte(s)` yields those bytes. -/

/-- UTF-8 encoding of a single character. -/
def utf8Char (c : Char) : List Nat :=
  let n := c.toNat
  if n < 128 then [n]
  else if n < 2048 then [192 + n / 64, 128 + n % 64]
  else if n < 65536 then [224 + n / 4096, 128 + n / 64 % 64, 128 + n % 64]
  else [240 + n / 262144, 128 + n / 4096 % 64, 128 + n / 64 % 64, 128 + n % 64]

/-- The byte content of a Go string, i.e. `[]byte(s)`. -/
def strBytes (s : String) : List Nat := (s.data.map utf8Char).flatten

/-- `sha2560f` from `shorturl_generator.go`: SHA-256 of the UTF-8 bytes of the
input string. -/
def sha2560f (input : String) : List Nat := sha256 (strBytes input)

/-! ### Go run-time faults

A Go `panic` (e.g. an out-of-range slice `s[:8]`, or the explicit `panic(...)`
calls in the store), an `os.Exit(1)`, and a nil-pointer dereference all abort
the request / process.  They are modelled as explicit error values so that
"crash" and "returned normally" are distinguishable in theorems. -/

inductive GoFault where
  | panicked : GoFault
  | exited : GoFault
  | nilDeref : GoFault
deriving Repr, DecidableEq

/-! ### The base-58 codec (`github.com/itchyny/base58-go`, `BitcoinEncoding`)

The library's `Encoding.Encode` takes the ASCII *decimal* rendering of a
number and re-renders it in base 58 over the given alphabet; a byte outside
`'0'..'9'` is an error, and each leading `'0'` digit maps to a leading zero
symbol (`'1'` for the Bitcoin alphabet). -/

/-- The Bitcoin base-58 alphabet, as ASCII byte values
(`123456789ABCDEFGHJKLMNPQRSTUVWXYZabcdefghijkmnopqrstuvwxyz`:
no `0`, `O`, `I`, `l`). -/
def b58Alphabet : List Nat :=
  [49, 50, 51, 52, 53, 54, 55, 56, 57,
   65, 66, 67, 68, 69, 70, 71, 72, 74, 75, 76, 77, 78, 80, 81, 82, 83, 84,
   85, 86, 87, 88, 89, 90,
   97, 98, 99, 100, 101, 102, 103, 104, 105, 106, 107, 109, 110, 111, 112,
   113, 114, 115, 116, 117, 118, 119, 120, 121, 122]

/-- Most-significant-first digit extraction in base `B`, pushing `f` of each
digit onto `acc`; the fuel argument bounds recursion and is chosen large
enough at every use site. -/
def digitsAux (B : Nat) (f : Nat → Nat) : Nat → Nat → List Nat → List Nat
  | 0, _, acc => acc
  | fu + 1, n, acc => if n = 0 then acc else digitsAux B f fu (n / B) (f (n % B) :: acc)

/-- Numeric value of an ASCII decimal digit string (most significant first). -/
def natFromDecBytes (l : List Nat) : Nat := l.foldl (fun a b => a * 10 + (b - 48)) 0

/-- Count of leading ASCII `'0'` bytes. -/
def countLeadingZeros : List Nat → Nat
  | [] => 0
  | b :: t => if b = 48 then countLeadingZeros t + 1 else 0

/-- `base58Encoded` from `shorturl_generator.go`, together with the library
encoder it wraps: on a non-digit byte the Go code prints the error and calls
`os.Exit(1)` (here `Except.error`); otherwise it returns the base-58
rendering of the decimal value, one leading `'1'` per leading `'0'`. -/
def base58Encoded (bytes : List Nat) : Except Unit (List Nat) :=
  if bytes.any (fun b => decide (b < 48) || decide (57 < b)) then Except.error ()
  else
    Except.ok (List.replicate (countLeadingZeros bytes) 49 ++
      digitsAux 58 (fun i => b58Alphabet.getD i 0) bytes.length (natFromDecBytes bytes) [])

/-! ### The short-link generator (`GeneratedLink`) -/

/-- `big.Int.SetBytes`: interpret a byte list as a big-endian natural. -/
def natBE (l : List Nat) : Nat := l.foldl (fun acc b => acc * 256 + b) 0

/-- `big.Int.Uint64`: the low-order 64 bits of the value. -/
def uint64Of (n : Nat) : Nat := n % 18446744073709551616

/-- `fmt.Sprintf "%d"` on a `uint64`: ASCII decimal digits, no sign, no
leading zeros, and `"0"` for zero. -/
def goDecimal (n : Nat) : List Nat :=
  if n = 0 then [48] else (digitsAux 10 (fun d => d) 20 n []).map (fun d => d + 48)

/-- `GeneratedLink` from `shorturl_generator.go`:
hash `initialLink + userId` with SHA-256, take the low 64 bits of the digest
read as a big-endian integer, render in decimal, base-58 encode, and return
the slice `finalString[:8]`.  The slice panics when the encoded string is
shorter than 8 bytes, and an encoder error exits the process; both faults
surface as `Except.error`. -/
def GeneratedLink (initialLink : String) (userId : String) : Except GoFault (List Nat) :=
  let urlHashBytes := sha2560f (initialLink ++ userId)
  let generatedNumber := uint64Of (natBE urlHashBytes)
  match base58Encoded (goDecimal generatedNumber) with
  | Except.error _ => Except.error GoFault.exited
  | Except.ok finalString =>
    if 8 ≤ finalString.length then Except.ok (finalString.take 8)
    else Except.error GoFault.panicked

/-! ### The storage layer (`store.service.go`)

Redis is modelled as an association list from keys to (value, absolute expiry
time) pairs plus a current clock, in nanoseconds (Go `time.Duration` units).
The package-global `storeService` becomes an explicit `StorageService` value
threaded through the operations; its `redisClient` field is `none` until
`InitializeStore` has run, matching the zero value `&StorageService{}`. -/

/-- A Redis database: keyed entries carrying their absolute expiry instant,
and the current clock (nanoseconds). -/
structure RedisDB where
  entries : List (String × String × Nat)
  now : Nat
deriving Repr, DecidableEq

/-- `StorageService`: the wrapper around the raw Redis client; `none` models
the nil client of the zero value. -/
structure StorageService where
  redisClient : Option RedisDB
deriving Repr, DecidableEq

/-- `CacheDuration = 6 * time.Hour`, in nanoseconds. -/
def CacheDuration : Nat := 6 * 3600 * 1000000000

/-- Redis `SET key value EX ttl`: overwrite any entry at `k` and give it the
expiry `now + ttl`. -/
def redisSet (k v : String) (ttl : Nat) (db : RedisDB) : RedisDB :=
  ⟨(k, v, db.now + ttl) :: db.entries.filter (fun e => !(e.1 == k)), db.now⟩

/-- Redis `GET key`: the stored value, or `none` when the key is absent or
its expiry has passed (`redis.Nil`). -/
def redisGet (k : String) (db : RedisDB) : Option String :=
  match db.entries.find? (fun e => e.1 == k) with
  | some (_, v, exp) => if db.now < exp then some v else none
  | none => none

/-- `InitializeStore`: connect to Redis and `Ping`; a failed ping panics,
a successful one installs the client (here: the ambient database `db`). -/
def InitializeStore (pingOk : Bool) (db : RedisDB) : Except GoFault StorageService :=
  if pingOk then Except.ok ⟨some db⟩ else Except.error GoFault.panicked

/-- `SaveUrlMapping`: `redisClient.Set(ctx, shortUrl, originalUrl,
CacheDuration)`.  A nil client faults; note `userId` is not consulted. -/
def SaveUrlMapping (svc : StorageService) (shortUrl originalUrl userId : String) :
    Except GoFault StorageService :=
  match svc.redisClient with
  | none => Except.error GoFault.nilDeref
  | some db => Except.ok ⟨some (redisSet shortUrl originalUrl CacheDuration db)⟩

/-- `RetrieveInitialUrl`: `redisClient.Get(ctx, shortUrl)`.  A nil client
faults with a nil dereference; a miss (`redis.Nil`) takes the
`panic(...)` branch of the Go code. -/
def RetrieveInitialUrl (svc : StorageService) (shortUrl : String) : Except GoFault String :=
  match svc.redisClient with
  | none => Except.error GoFault.nilDeref
  | some db =>
    match redisGet shortUrl db with
    | some v => Except.ok v
    | none => Except.error GoFault.panicked

/-- Let `d` nanoseconds pass on the service clock. -/
def advanceService (d : Nat) (svc : StorageService) : StorageService :=
  ⟨svc.redisClient.map (fun db => ⟨db.entries, db.now + d⟩)⟩

/-- The specification's reading of the derived integer: the trailing 8 bytes
of the digest of `longUrl ++ ownerId`, interpreted big-endian. -/
def trailingUint64 (longUrl ownerId : String) : Nat :=
  natBE ((sha2560f (longUrl ++ ownerId)).drop 24)

/-- The code produced by the specification's pipeline, word for word: base-58
encode the ASCII decimal rendering of the trailing-8-byte integer and keep
the first 8 characters. -/
def specShortCode (longUrl ownerId : String) : List Nat :=
  match base58Encoded (goDecimal (trailingUint64 longUrl ownerId)) with
  | Except.ok encoded => encoded.take 8
  | Except.error _ => []

end UrlShortener

deriving instance DecidableEq for Except

namespace UrlShortener

/-! ### Lemmas: digit extraction -/

theorem digitsAux_zero (B : Nat) (f : Nat → Nat) (fu : Nat) (acc : List Nat) :
    digitsAux B f fu 0 acc = acc := by
  cases fu <;> simp [digitsAux]

theorem digitsAux_length_le (B : Nat) (f : Nat → Nat) :
    ∀ fu n acc, acc.length ≤ (digitsAux B f fu n acc).length := by
  intro fu
  induction fu with
  | zero => intro n acc; simp [digitsAux]
  | succ fu ih =>
    intro n acc
    by_cases hn : n = 0
    · simp [digitsAux, hn]
    · simp only [digitsAux, if_neg hn]
      calc acc.length ≤ (f (n % B) :: acc).length := by simp
        _ ≤ _ := ih (n / B) (f (n % B) :: acc)

theorem digitsAux_length_lower (B : Nat) (f : Nat → Nat) (hB : 2 ≤ B) :
    ∀ k fu n acc, k < fu → B ^ k ≤ n →
      acc.length + k + 1 ≤ (digitsAux B f fu n acc).length := by
  intro k
  induction k with
  | zero =>
    intro fu n acc hfu hn
    obtain ⟨fu, rfl⟩ : ∃ m, fu = m + 1 := ⟨fu - 1, by omega⟩
    rw [pow_zero] at hn
    have hn0 : n ≠ 0 := by omega
    simp only [digitsAux, if_neg hn0]
    have := digitsAux_length_le B f fu (n / B) (f (n % B) :: acc)
    simp only [List.length_cons] at this
    omega
  | succ k ih =>
    intro fu n acc hfu hn
    obtain ⟨fu, rfl⟩ : ∃ m, fu = m + 1 := ⟨fu - 1, by omega⟩
    have hB0 : 0 < B := by omega
    have hn0 : n ≠ 0 := by
      have : 0 < B ^ (k + 1) := pow_pos hB0 (k + 1)
      omega
    simp only [digitsAux, if_neg hn0]
    have hdiv : B ^ k ≤ n / B := by
      rw [Nat.le_div_iff_mul_le hB0]
      calc B ^ k * B = B ^ (k + 1) := (pow_succ B k).symm
        _ ≤ n := hn
    have := ih fu (n / B) (f (n % B) :: acc) (by omega) hdiv
    simp only [List.length_cons] at this
    omega

theorem digitsAux_foldl (B : Nat) (hB : 2 ≤ B) :
    ∀ fu n acc, n < B ^ fu →
      (digitsAux B (fun d => d) fu n acc).foldl (fun a d => a * B + d) 0 =
        acc.foldl (fun a d => a * B + d) n := by
  intro fu
  induction fu with
  | zero =>
    intro n acc hn
    rw [pow_zero] at hn
    have hn0 : n = 0 := by omega
    subst hn0
    simp [digitsAux]
  | succ fu ih =>
    intro n acc hn
    by_cases hn0 : n = 0
    · subst hn0; simp [digitsAux]
    · simp only [digitsAux, if_neg hn0]
      have hB0 : 0 < B := by omega
      have hdiv : n / B < B ^ fu := by
        rw [Nat.div_lt_iff_lt_mul hB0]
        calc n < B ^ (fu + 1) := hn
          _ = B ^ fu * B := pow_succ B fu
      have hdm : n / B * B + n % B = n := by
        rw [Nat.mul_comm]
        exact Nat.div_add_mod n B
      rw [ih (n / B) (n % B :: acc) hdiv, List.foldl_cons, hdm]

theorem digitsAux_head_pos (B : Nat) (hB : 2 ≤ B) :
    ∀ fu n acc, 0 < n → n < B ^ fu →
      ∃ d t, digitsAux B (fun d => d) fu n acc = d :: t ∧ 0 < d := by
  intro fu
  induction fu with
  | zero =>
    intro n acc hn hlt
    rw [pow_zero] at hlt
    omega
  | succ fu ih =>
    intro n acc hn hlt
    have hn0 : n ≠ 0 := by omega
    have hB0 : 0 < B := by omega
    simp only [digitsAux, if_neg hn0]
    by_cases hq : n / B = 0
    · have hnB : n < B := by
        by_contra hge
        have := Nat.div_pos (Nat.le_of_not_lt hge) hB0
        omega
      rw [hq, digitsAux_zero]
      exact ⟨n % B, acc, rfl, by rw [Nat.mod_eq_of_lt hnB]; exact hn⟩
    · have hdiv : n / B < B ^ fu := by
        rw [Nat.div_lt_iff_lt_mul hB0]
        calc n < B ^ (fu + 1) := hlt
          _ = B ^ fu * B := pow_succ B fu
      exact ih (n / B) (n % B :: acc) (Nat.pos_of_ne_zero hq) hdiv

theorem digitsAux_mem_lt (B : Nat) (hB : 0 < B) :
    ∀ fu n acc, (∀ x ∈ acc, x < B) →
      ∀ x ∈ digitsAux B (fun d => d) fu n acc, x < B := by
  intro fu
  induction fu with
  | zero => intro n acc hacc; simpa [digitsAux] using hacc
  | succ fu ih =>
    intro n acc hacc
    by_cases hn0 : n = 0
    · simpa [digitsAux, hn0] using hacc
    · simp only [digitsAux, if_neg hn0]
      refine ih (n / B) (n % B :: acc) ?_
      intro x hx
      rcases List.mem_cons.mp hx with h | h
      · subst h; exact Nat.mod_lt n hB
      · exact hacc x h

/-! ### Lemmas: the decimal rendering and its base-58 encoding -/

theorem goDecimal_mem (n : Nat) : ∀ b ∈ goDecimal n, 48 ≤ b ∧ b ≤ 57 := by
  intro b hb
  by_cases hn0 : n = 0
  · simp [goDecimal, hn0] at hb
    omega
  · simp only [goDecimal, if_neg hn0, List.mem_map] at hb
    obtain ⟨d, hd, rfl⟩ := hb
    have := digitsAux_mem_lt 10 (by omega) 20 n [] (by simp) d hd
    omega

theorem goDecimal_valid (n : Nat) :
    (goDecimal n).any (fun b => decide (b < 48) || decide (57 < b)) = false := by
  rw [List.any_eq_false]
  intro b hb
  have := goDecimal_mem n b hb
  simp only [Bool.or_eq_true, decide_eq_true_eq, not_or]
  omega

theorem base58Encoded_goDecimal_ok (n : Nat) :
    base58Encoded (goDecimal n) =
      Except.ok (List.replicate (countLeadingZeros (goDecimal n)) 49 ++
        digitsAux 58 (fun i => b58Alphabet.getD i 0) (goDecimal n).length
          (natFromDecBytes (goDecimal n)) []) := by
  rw [base58Encoded, if_neg (by simp [goDecimal_valid n])]

theorem natFromDecBytes_goDecimal (n : Nat) (hn : n < 10 ^ 20) :
    natFromDecBytes (goDecimal n) = n := by
  by_cases hn0 : n = 0
  · simp [natFromDecBytes, goDecimal, hn0]
  · simp only [goDecimal, if_neg hn0, natFromDecBytes, List.foldl_map]
    have : (fun (a : Nat) (b : Nat) => a * 10 + (b + 48 - 48)) =
        fun (a : Nat) (d : Nat) => a * 10 + d := by
      funext a b
      omega
    rw [this]
    exact digitsAux_foldl 10 (by omega) 20 n [] hn

theorem countLeadingZeros_goDecimal (n : Nat) (hn0 : 0 < n) (hn : n < 10 ^ 20) :
    countLeadingZeros (goDecimal n) = 0 := by
  have hne : n ≠ 0 := by omega
  obtain ⟨d, t, hdt, hdpos⟩ := digitsAux_head_pos 10 (by omega) 20 n [] hn0 hn
  simp only [goDecimal, if_neg hne, hdt, List.map_cons, countLeadingZeros]
  rw [if_neg (by omega)]

theorem goDecimal_length_lower (n : Nat) (k : Nat) (hk : k < 20) (hn : 10 ^ k ≤ n) :
    k + 1 ≤ (goDecimal n).length := by
  have hn0 : n ≠ 0 := by
    have : 0 < 10 ^ k := pow_pos (by omega) k
    omega
  simp only [goDecimal, if_neg hn0, List.length_map]
  have := digitsAux_length_lower 10 (fun d => d) (by omega) k 20 n [] hk hn
  simpa using this

/-! ### Lemmas: big-endian byte interpretation (`big.Int.SetBytes`) -/

theorem foldlBE_eq (l : List Nat) :
    ∀ v, l.foldl (fun acc b => acc * 256 + b) v = v * 256 ^ l.length + natBE l := by
  induction l with
  | nil => intro v; simp [natBE]
  | cons b t ih =>
    intro v
    have hbt : natBE (b :: t) = b * 256 ^ t.length + natBE t := by
      rw [natBE, List.foldl_cons, ih (0 * 256 + b)]
      ring_nf
    rw [List.foldl_cons, ih (v * 256 + b), hbt, List.length_cons, pow_succ]
    ring

theorem natBE_append (l₁ l₂ : List Nat) :
    natBE (l₁ ++ l₂) = natBE l₁ * 256 ^ l₂.length + natBE l₂ := by
  rw [natBE, List.foldl_append, ← natBE, foldlBE_eq]

theorem natBE_lt (l : List Nat) (h : ∀ b ∈ l, b < 256) : natBE l < 256 ^ l.length := by
  induction l with
  | nil => simp [natBE]
  | cons b t ih =>
    have hbt : natBE (b :: t) = b * 256 ^ t.length + natBE t := by
      rw [natBE, List.foldl_cons, foldlBE_eq]
      ring_nf
    rw [hbt, List.length_cons, pow_succ]
    have hb : b < 256 := h b (List.mem_cons_self b t)
    have ht : natBE t < 256 ^ t.length := ih (fun x hx => h x (List.mem_cons_of_mem b hx))
    calc b * 256 ^ t.length + natBE t < b * 256 ^ t.length + 256 ^ t.length := by omega
      _ = (b + 1) * 256 ^ t.length := by ring
      _ ≤ 256 * 256 ^ t.length := Nat.mul_le_mul_right _ (by omega)
      _ = 256 ^ t.length * 256 := by ring

/-! ### Lemmas: shape of the SHA-256 digest -/

theorem wordBytes_mem_lt (w : Nat) : ∀ b ∈ wordBytes w, b < 256 := by
  intro b hb
  simp only [wordBytes, List.mem_cons, List.not_mem_nil, or_false] at hb
  rcases hb with rfl | rfl | rfl | rfl <;> exact Nat.mod_lt _ (by omega)

theorem outBytes_length (s : Hs) : (outBytes s).length = 32 := by
  simp [outBytes, wordBytes]

theorem outBytes_mem_lt (s : Hs) : ∀ b ∈ outBytes s, b < 256 := by
  intro b hb
  simp only [outBytes, List.mem_append] at hb
  rcases hb with ((((((h | h) | h) | h) | h) | h) | h) | h <;> exact wordBytes_mem_lt _ b h

theorem sha256_length (msg : List Nat) : (sha256 msg).length = 32 := by
  rw [sha256]
  exact outBytes_length _

theorem sha256_mem_lt (msg : List Nat) : ∀ b ∈ sha256 msg, b < 256 := by
  rw [sha256]
  exact outBytes_mem_lt _

/-- `big.Int.SetBytes(digest).Uint64()` coincides with reading the trailing
8 digest bytes as a big-endian 64-bit integer. -/
theorem uint64Of_natBE_sha256 (msg : List Nat) :
    uint64Of (natBE (sha256 msg)) = natBE ((sha256 msg).drop 24) := by
  have hlen : (sha256 msg).length = 32 := sha256_length msg
  have hsplit : sha256 msg = (sha256 msg).take 24 ++ (sha256 msg).drop 24 :=
    (List.take_append_drop 24 (sha256 msg)).symm
  have hdlen : ((sha256 msg).drop 24).length = 8 := by
    rw [List.length_drop, hlen]
  have hdrop_lt : natBE ((sha256 msg).drop 24) < 256 ^ 8 := by
    have := natBE_lt ((sha256 msg).drop 24)
      (fun b hb => sha256_mem_lt msg b (List.drop_subset 24 (sha256 msg) hb))
    rwa [hdlen] at this
  rw [uint64Of]
  conv_lhs => rw [hsplit]
  rw [natBE_append, hdlen]
  have h256 : (256 : Nat) ^ 8 = 18446744073709551616 := by norm_num
  rw [h256] at hdrop_lt ⊢
  rw [Nat.add_comm, Nat.add_mul_mod_self_right, Nat.mod_eq_of_lt hdrop_lt]

/-! ### Lemmas: the store's association list -/

theorem find?_filter_ne (l : List (String × String × Nat)) (c k : String) (h : c ≠ k) :
    (l.filter (fun e => !(e.1 == k))).find? (fun e => e.1 == c) =
      l.find? (fun e => e.1 == c) := by
  induction l with
  | nil => rfl
  | cons x t ih =>
    by_cases hx : x.1 = k
    · rw [List.filter_cons, if_neg (by simp [hx]),
        List.find?_cons_of_neg _ (by simp only [hx, beq_iff_eq]; exact fun hh => h hh.symm), ih]
    · rw [List.filter_cons, if_pos (by simp [hx])]
      by_cases hc : x.1 = c
      · rw [List.find?_cons_of_pos _ (by simp [hc]), List.find?_cons_of_pos _ (by simp [hc])]
      · rw [List.find?_cons_of_neg _ (by simp [hc]), List.find?_cons_of_neg _ (by simp [hc]), ih]

/-! ### Claims -/

set_option maxRecDepth 100000

/-- Evaluation rule for `GeneratedLink` when the encoder output is long
enough for the `[:8]` slice. -/
theorem generatedLink_of_ok (u o : String) (L : List Nat)
    (hL : base58Encoded (goDecimal (uint64Of (natBE (sha2560f (u ++ o))))) = Except.ok L)
    (hlen : 8 ≤ L.length) :
    GeneratedLink u o = Except.ok (L.take 8) := by
  simp only [GeneratedLink, hL]
  rw [if_pos hlen]

/-- C1: `generate` returns the first 8 characters of the base-58 (Bitcoin
alphabet) encoding of the decimal rendering of the trailing-8-bytes
big-endian integer of the SHA-256 digest of `longUrl ++ ownerId`; in
particular `big.Int.SetBytes(digest).Uint64()` equals the trailing-8-bytes
big-endian interpretation. -/
theorem generate_matches_spec_pipeline (longUrl ownerId : String) :
    uint64Of (natBE (sha2560f (longUrl ++ ownerId))) = trailingUint64 longUrl ownerId ∧
    ∀ s, GeneratedLink longUrl ownerId = Except.ok s → s = specShortCode longUrl ownerId := by
  have h1 : uint64Of (natBE (sha2560f (longUrl ++ ownerId))) = trailingUint64 longUrl ownerId := by
    rw [trailingUint64, sha2560f]
    exact uint64Of_natBE_sha256 _
  refine ⟨h1, ?_⟩
  intro s hs
  simp only [GeneratedLink] at hs
  rw [h1] at hs
  simp only [specShortCode]
  split at hs
  · exact absurd hs (by simp)
  · rename_i finalString heq
    rw [heq]
    split at hs
    · exact (Except.ok.inj hs).symm
    · exact absurd hs (by simp)

/-- C1 witness: at `("a", "")` the generator returns a value and that value
matches the specification's pipeline. -/
theorem generate_matches_spec_pipeline_witness :
    strBytes "Y2bobpNj" = specShortCode "a" "" :=
  (generate_matches_spec_pipeline "a" "").2 (strBytes "Y2bobpNj") (by decide)

/-- C2: the pinned unit-test vector — the guru3d URL with the fixed owner
UUID produces exactly the 8-character code `jTa4L57P`. -/
theorem generate_pinned_vector :
    GeneratedLink
      "https://www.guru3d.com/news-story/spotted-ryzen-threadripper-pro-3995wx-processor-with-8-channel-ddr4,2.html"
      "e0dba740-fc4b-4977-872c-d360239e6b1a" = Except.ok (strBytes "jTa4L57P") := by
  decide

/-- C4 counterexample: `generate` is not total — on the input
`("u5397019", "")` the derived 64-bit integer is below `58^7`, the base-58
encoding has only 7 characters, and the slice `finalString[:8]` panics. -/
theorem generate_short_input_panics :
    GeneratedLink "u5397019" "" = Except.error GoFault.panicked := by
  decide

/-- C4 amended: whenever the derived 64-bit integer is at least `58^7`
(base-58 length at least 8), the slice succeeds and `generate` returns an
8-character string; for smaller derived integers the slice faults. -/
theorem generate_ok_when_derived_large (longUrl ownerId : String)
    (h : 58 ^ 7 ≤ uint64Of (natBE (sha2560f (longUrl ++ ownerId)))) :
    ∃ s, GeneratedLink longUrl ownerId = Except.ok s ∧ s.length = 8 := by
  set n := uint64Of (natBE (sha2560f (longUrl ++ ownerId))) with hn
  have hpos : 0 < n := lt_of_lt_of_le (by norm_num) h
  have hlt20 : n < 10 ^ 20 := by
    have hmod : n < 18446744073709551616 := by
      rw [hn, uint64Of]
      exact Nat.mod_lt _ (by norm_num)
    calc n < 18446744073709551616 := hmod
      _ < 10 ^ 20 := by norm_num
  have hdl : 8 ≤ (goDecimal n).length := by
    have := goDecimal_length_lower n 7 (by norm_num) (le_trans (by norm_num) h)
    omega
  have hstep := base58Encoded_goDecimal_ok n
  rw [countLeadingZeros_goDecimal n hpos hlt20, natFromDecBytes_goDecimal n hlt20] at hstep
  simp only [List.replicate, List.nil_append] at hstep
  have hlen : 8 ≤ (digitsAux 58 (fun i => b58Alphabet.getD i 0) (goDecimal n).length n []).length := by
    have := digitsAux_length_lower 58 (fun i => b58Alphabet.getD i 0)
      (by norm_num) 7 (goDecimal n).length n [] (by omega) h
    simpa using this
  refine ⟨_, generatedLink_of_ok longUrl ownerId _ hstep hlen, ?_⟩
  rw [List.length_take]
  omega

/-- C4 witness for the amended claim: at `("a", "")` the derived integer
exceeds `58^7` and the generator returns an 8-character code. -/
theorem generate_ok_when_derived_large_witness :
    ∃ s, GeneratedLink "a" "" = Except.ok s ∧ s.length = 8 :=
  generate_ok_when_derived_large "a" "" (by decide)

/-- C7: `generate` is deterministic — for a fixed input pair any two calls
agree — and its only hidden effect branch, the encoder's `os.Exit`, is
unreachable for every input. -/
theorem generate_deterministic (longUrl ownerId : String) :
    (∀ r₁ r₂, GeneratedLink longUrl ownerId = r₁ → GeneratedLink longUrl ownerId = r₂ → r₁ = r₂) ∧
    GeneratedLink longUrl ownerId ≠ Except.error GoFault.exited := by
  constructor
  · intro r₁ r₂ h₁ h₂
    rw [← h₁, ← h₂]
  · simp only [GeneratedLink]
    rw [base58Encoded_goDecimal_ok]
    simp only
    split <;> simp

/-- C7 witness: two calls at `("a", "b")` coincide and the call does not
exit the process. -/
theorem generate_deterministic_witness :
    GeneratedLink "a" "b" = GeneratedLink "a" "b" ∧
    GeneratedLink "a" "b" ≠ Except.error GoFault.exited :=
  ⟨(generate_deterministic "a" "b").1 (GeneratedLink "a" "b") (GeneratedLink "a" "b") rfl rfl,
   (generate_deterministic "a" "b").2⟩

/-- C9: `generate` depends only on the concatenation `longUrl ++ ownerId`,
so pairs with coinciding concatenations always produce the same code. -/
theorem generate_concatenation_collision (u o u₂ o₂ : String) (h : u ++ o = u₂ ++ o₂) :
    GeneratedLink u o = GeneratedLink u₂ o₂ := by
  simp only [GeneratedLink, h]

/-- C9 witness: `("ab", "c")` and `("a", "bc")` concatenate identically and
collide. -/
theorem generate_concatenation_collision_witness :
    ("ab" : String) ++ "c" = "a" ++ "bc" ∧ GeneratedLink "ab" "c" = GeneratedLink "a" "bc" :=
  ⟨by decide, generate_concatenation_collision "ab" "c" "a" "bc" (by decide)⟩

/-- C3: contrary to the claim, a lookup miss does crash — `get` on a code
that is absent (first conjunct) or whose TTL has elapsed (second conjunct)
takes the `panic` branch of `RetrieveInitialUrl` instead of returning a
recoverable NotFound error value. -/
theorem get_miss_crashes :
    RetrieveInitialUrl ⟨some ⟨[], 0⟩⟩ "absent" = Except.error GoFault.panicked ∧
    RetrieveInitialUrl ⟨some ⟨[("c", "https://example.com", 5)], 5⟩⟩ "c" =
      Except.error GoFault.panicked := by
  exact ⟨rfl, rfl⟩

/-- C5: `put` then `get` within the TTL window (strictly less than 6 hours
later) returns exactly the original long URL. -/
theorem put_get_roundtrip (db : RedisDB) (code url owner : String) (d : Nat)
    (hd : d < CacheDuration) :
    ∃ svc, SaveUrlMapping ⟨some db⟩ code url owner = Except.ok svc ∧
      RetrieveInitialUrl (advanceService d svc) code = Except.ok url := by
  refine ⟨⟨some (redisSet code url CacheDuration db)⟩, rfl, ?_⟩
  have hfind : List.find? (fun e => e.1 == code)
      ((code, url, db.now + CacheDuration) :: db.entries.filter (fun e => !(e.1 == code))) =
      some (code, url, db.now + CacheDuration) :=
    List.find?_cons_of_pos _ (by simp)
  simp only [RetrieveInitialUrl, advanceService, Option.map, redisSet, redisGet, hfind]
  rw [if_pos (by omega)]

/-- C5 witness: the unit test's mapping is saved and retrieved unchanged at
the instant of the write. -/
theorem put_get_roundtrip_witness :
    (0 : Nat) < CacheDuration ∧
    ∃ svc, SaveUrlMapping ⟨some ⟨[], 0⟩⟩ "Jsz4k57oAX"
        "https://www.guru3d.com/news-story/spotted-ryzen-threadripper-pro-3995wx-processor-with-8-channel-ddr4,2.html"
        "e0dba740-fc4b-4977-872c-d360239e6b1a" = Except.ok svc ∧
      RetrieveInitialUrl (advanceService 0 svc) "Jsz4k57oAX" =
        Except.ok "https://www.guru3d.com/news-story/spotted-ryzen-threadripper-pro-3995wx-processor-with-8-channel-ddr4,2.html" :=
  ⟨by decide,
   put_get_roundtrip ⟨[], 0⟩ "Jsz4k57oAX"
     "https://www.guru3d.com/news-story/spotted-ryzen-threadripper-pro-3995wx-processor-with-8-channel-ddr4,2.html"
     "e0dba740-fc4b-4977-872c-d360239e6b1a" 0 (by decide)⟩

/-- C6: `put` stores the mapping with expiry exactly `now + 6 hours`,
overwrites whatever was at the same code, and leaves every other code's
entry unchanged; the clock is untouched. -/
theorem put_overwrites_and_frames (db : RedisDB) (code url owner c : String) (hc : c ≠ code) :
    SaveUrlMapping ⟨some db⟩ code url owner =
      Except.ok ⟨some (redisSet code url CacheDuration db)⟩ ∧
    (redisSet code url CacheDuration db).entries.find? (fun e => e.1 == code) =
      some (code, url, db.now + CacheDuration) ∧
    (redisSet code url CacheDuration db).entries.find? (fun e => e.1 == c) =
      db.entries.find? (fun e => e.1 == c) ∧
    (redisSet code url CacheDuration db).now = db.now ∧
    CacheDuration = 21600000000000 := by
  refine ⟨rfl, List.find?_cons_of_pos _ (by simp), ?_, rfl, by norm_num [CacheDuration]⟩
  simp only [redisSet]
  rw [List.find?_cons_of_neg _ (by simp only [beq_iff_eq]; exact fun hh => hc hh.symm)]
  exact find?_filter_ne db.entries c code hc

/-- C6 witness: overwriting `"a"` (previously mapped to `"old"`) leaves the
entry at `"b"` untouched and installs the fresh 6-hour expiry at `"a"`. -/
theorem put_overwrites_and_frames_witness :
    SaveUrlMapping ⟨some ⟨[("a", "old", 7), ("b", "kept", 9)], 3⟩⟩ "a" "new" "owner" =
      Except.ok ⟨some (redisSet "a" "new" CacheDuration ⟨[("a", "old", 7), ("b", "kept", 9)], 3⟩)⟩ ∧
    (redisSet "a" "new" CacheDuration
        ⟨[("a", "old", 7), ("b", "kept", 9)], 3⟩).entries.find? (fun e => e.1 == "a") =
      some ("a", "new", 3 + CacheDuration) ∧
    (redisSet "a" "new" CacheDuration
        ⟨[("a", "old", 7), ("b", "kept", 9)], 3⟩).entries.find? (fun e => e.1 == "b") =
      List.find? (fun e => e.1 == "b") [("a", "old", 7), ("b", "kept", 9)] ∧
    (redisSet "a" "new" CacheDuration ⟨[("a", "old", 7), ("b", "kept", 9)], 3⟩).now = 3 ∧
    CacheDuration = 21600000000000 :=
  put_overwrites_and_frames ⟨[("a", "old", 7), ("b", "kept", 9)], 3⟩ "a" "new" "owner" "b"
    (by decide)

/-- C8: `ownerId` is not stored — two `put` executions differing only in the
owner argument produce identical results from any starting state, and every
subsequent `get`, at any later instant and for any code, is likewise
identical. -/
theorem owner_not_stored (svc : StorageService) (code url o₁ o₂ : String) :
    SaveUrlMapping svc code url o₁ = SaveUrlMapping svc code url o₂ ∧
    ∀ d c, (SaveUrlMapping svc code url o₁).map
        (fun s => RetrieveInitialUrl (advanceService d s) c) =
      (SaveUrlMapping svc code url o₂).map
        (fun s => RetrieveInitialUrl (advanceService d s) c) :=
  ⟨rfl, fun _ _ => rfl⟩

/-- C10: `put`/`get` require prior initialization — on the zero-valued
service (nil client) both fault with a nil dereference; a successful
`InitializeStore` yields a non-nil handle, and with a non-nil handle
neither operation can nil-fault. -/
theorem store_requires_init :
    (∀ code url owner, SaveUrlMapping ⟨none⟩ code url owner = Except.error GoFault.nilDeref) ∧
    (∀ code, RetrieveInitialUrl ⟨none⟩ code = Except.error GoFault.nilDeref) ∧
    (∀ ping db svc, InitializeStore ping db = Except.ok svc → svc.redisClient ≠ none) ∧
    (∀ svc code url owner, svc.redisClient ≠ none →
      SaveUrlMapping svc code url owner ≠ Except.error GoFault.nilDeref ∧
      RetrieveInitialUrl svc code ≠ Except.error GoFault.nilDeref) := by
  refine ⟨fun _ _ _ => rfl, fun _ => rfl, ?_, ?_⟩
  · intro ping db svc h
    cases ping with
    | false => simp [InitializeStore] at h
    | true =>
      rw [show InitializeStore true db = Except.ok ⟨some db⟩ from rfl] at h
      rw [← Except.ok.inj h]
      simp
  · intro svc code url owner hnn
    obtain ⟨db, hdb⟩ : ∃ db, svc.redisClient = some db := by
      cases hsvc : svc.redisClient with
      | none => exact absurd hsvc hnn
      | some db => exact ⟨db, rfl⟩
    constructor
    · simp [SaveUrlMapping, hdb]
    · simp only [RetrieveInitialUrl, hdb]
      cases hget : redisGet code db <;> simp

/-- C10 witness: the nil-handle fault on the zero value, and the absence of
nil faults once a successfully initialized handle is in place. -/
theorem store_requires_init_witness :
    SaveUrlMapping ⟨none⟩ "c" "u" "o" = Except.error GoFault.nilDeref ∧
    RetrieveInitialUrl ⟨none⟩ "c" = Except.error GoFault.nilDeref ∧
    (⟨some ⟨[], 0⟩⟩ : StorageService).redisClient ≠ none ∧
    SaveUrlMapping ⟨some ⟨[], 0⟩⟩ "c" "u" "o" ≠ Except.error GoFault.nilDeref ∧
    RetrieveInitialUrl ⟨some ⟨[], 0⟩⟩ "c" ≠ Except.error GoFault.nilDeref :=
  ⟨store_requires_init.1 "c" "u" "o",
   store_requires_init.2.1 "c",
   store_requires_init.2.2.1 true ⟨[], 0⟩ ⟨some ⟨[], 0⟩⟩ (by decide),
   (store_requires_init.2.2.2 ⟨some ⟨[], 0⟩⟩ "c" "u" "o" (by simp)).1,
   (store_requires_init.2.2.2 ⟨some ⟨[], 0⟩⟩ "c" "u" "o" (by simp)).2⟩

end UrlShortener
